import Mathlib

/-!
Shallow embedding of the LSS-Twon-DB repository.

Storage model (src/build_database.py, `create_tables`): four tables with
SQLite foreign keys — Tweets.author_id ON DELETE CASCADE,
Tweets.retweet_of_user_id ON DELETE SET NULL, Follows endpoints ON DELETE
CASCADE, Likes.user_id / Likes.tweet_id ON DELETE CASCADE.

Bulk loader (src/populate_databse.py, `populate_database`): harvests user ids
from the three CSV streams, upserts Users first (COALESCE on username), then
Tweets / Follows / Likes with ON CONFLICT DO NOTHING, all in one transaction
with rollback on error.

Feed engine (src/query_database.py, `TwitterDBQuery`): `get_user_feed` and
`get_user_feed_until` select tweets whose author is in
followees(user) UNION {user}, join author and retweet-target usernames,
order by created_at descending (Postgres: NULLS FIRST) and truncate to the
limit.  The sort in this embedding is a stable structural sort; Postgres
leaves the order of equal keys implementation-defined, the stable sort is
one deterministic refinement of it.

Rows are modelled after the CSV columns the code reads; fields the code
guards with pd.notna are Options, fields it converts unconditionally with
int() are Int.  Timestamps are modelled as Int instants.
-/

namespace TwonDB

structure User where
  user_id : Int
  username : Option String
deriving DecidableEq, Repr

structure Tweet where
  tweet_id : Int
  author_id : Int
  full_text : Option String
  created_at : Option Int
  retweet_of_user_id : Option Int
  collected_at : Option Int
deriving DecidableEq, Repr

structure Follow where
  follower_id : Int
  followee_id : Int
deriving DecidableEq, Repr

structure Like where
  user_id : Int
  tweet_id : Int
  collected_at : Option Int
deriving DecidableEq, Repr

structure DB where
  users : List User
  tweets : List Tweet
  follows : List Follow
  likes : List Like
deriving DecidableEq, Repr

def emptyDB : DB := { users := [], tweets := [], follows := [], likes := [] }

/-- SELECT * FROM Users WHERE user_id = ? (point lookup). -/
def getUserById (db : DB) (i : Int) : Option User :=
  db.users.find? (fun u => u.user_id == i)

/-- SELECT * FROM Tweets WHERE tweet_id = ? (`get_tweet_by_id`). -/
def getTweetById (db : DB) (i : Int) : Option Tweet :=
  db.tweets.find? (fun t => t.tweet_id == i)

def usersHas (us : List User) (i : Int) : Bool :=
  us.any (fun u => u.user_id == i)

def userExists (db : DB) (i : Int) : Bool :=
  usersHas db.users i

def tweetsHas (ts : List Tweet) (i : Int) : Bool :=
  ts.any (fun t => t.tweet_id == i)

def tweetExists (db : DB) (i : Int) : Bool :=
  tweetsHas db.tweets i

/-- SELECT followee_id FROM Follows WHERE follower_id = ? (`get_followees`). -/
def get_followees (db : DB) (uid : Int) : List Int :=
  db.follows.filterMap (fun f => if f.follower_id == uid then some f.followee_id else none)

def lookupUsername (us : List User) (k : Int) : Option (Option String) :=
  (us.find? (fun u => u.user_id == k)).map (fun u => u.username)

/-! ### Incoming CSV rows (the three files read by `populate_database`) -/

/-- A row of the follows CSV: `from_id` follows `id`; `username` is the
username column attached to `id`. -/
structure FollowRow where
  from_id : Int
  id : Int
  username : Option String
deriving DecidableEq, Repr

/-- A row of the likes CSV: `original_user_id` (with `screen_name`) liked the
tweet `tweet_id` authored by `liked_user_id`. -/
structure LikeRow where
  original_user_id : Int
  screen_name : Option String
  liked_user_id : Int
  tweet_id : Option Int
  full_text : Option String
  created_at : Option Int
  collected_at : Option Int
deriving DecidableEq, Repr

/-- A row of the tweets CSV. -/
structure TweetRow where
  tweet_id : Option Int
  original_user_id : Int
  screen_name : Option String
  full_text : Option String
  created_at : Option Int
  retweeted_user_ID : Option Int
  collected_at : Option Int
deriving DecidableEq, Repr

structure Batch where
  follows : List FollowRow
  likes : List LikeRow
  tweets : List TweetRow
deriving DecidableEq, Repr

/-! ### Step 1 of the loader: harvesting the user dictionary

`users[k] = users.get(k, v)` keeps an existing entry and otherwise appends
`(k, v)`; the scan order is follows rows, then likes rows, then tweets rows,
and inside a row the id carrying a username comes first.
-/

/-- The (id, username) pairs offered to the users dictionary, in scan order. -/
def harvestPairs (b : Batch) : List (Int × Option String) :=
  (b.follows.flatMap (fun r => [(r.id, r.username), (r.from_id, (none : Option String))])) ++
    (b.likes.flatMap (fun r =>
      [(r.original_user_id, r.screen_name), (r.liked_user_id, (none : Option String))])) ++
    (b.tweets.flatMap (fun r =>
      (r.original_user_id, r.screen_name) ::
        (match r.retweeted_user_ID with
         | some x => [(x, (none : Option String))]
         | none => [])))

/-- `users.get(k, v)` followed by `users[k] = ...`: insert only when absent. -/
def dictInsert (m : List (Int × Option String)) (k : Int) (v : Option String) :
    List (Int × Option String) :=
  if m.any (fun p => p.1 == k) then m else m ++ [(k, v)]

/-- The users dictionary after the three harvesting loops. -/
def userList (b : Batch) : List (Int × Option String) :=
  (harvestPairs b).foldl (fun m p => dictInsert m p.1 p.2) []

/-! ### Step 1 continued: the Users upsert

INSERT ... ON CONFLICT (user_id) DO UPDATE SET
  username = COALESCE(Users.username, EXCLUDED.username).
-/

def coalesce (old incoming : Option String) : Option String :=
  match old with
  | some s => some s
  | none => incoming

def upsertUser (us : List User) (p : Int × Option String) : List User :=
  if us.any (fun u => u.user_id == p.1) then
    us.map (fun u =>
      if u.user_id == p.1 then { u with username := coalesce u.username p.2 } else u)
  else
    us ++ [{ user_id := p.1, username := p.2 }]

def upsertUsers (us : List User) (l : List (Int × Option String)) : List User :=
  l.foldl upsertUser us

/-! ### Step 2 of the loader: the tweets dictionary and insert -/

def mkTweetFromTweetRow (r : TweetRow) (tid : Int) : Tweet :=
  { tweet_id := tid
    author_id := r.original_user_id
    full_text := r.full_text
    created_at := r.created_at
    retweet_of_user_id := r.retweeted_user_ID
    collected_at := r.collected_at }

def mkTweetFromLikeRow (r : LikeRow) (tid : Int) : Tweet :=
  { tweet_id := tid
    author_id := r.liked_user_id
    full_text := r.full_text
    created_at := r.created_at
    retweet_of_user_id := none
    collected_at := r.collected_at }

def tweetDictInsert (m : List Tweet) (t : Tweet) : List Tweet :=
  if m.any (fun x => x.tweet_id == t.tweet_id) then m else m ++ [t]

/-- The all_tweets dictionary: tweets file first, then the likes file, keyed
by tweet_id with first occurrence winning. -/
def tweetList (b : Batch) : List Tweet :=
  b.likes.foldl
    (fun m r =>
      match r.tweet_id with
      | some tid => tweetDictInsert m (mkTweetFromLikeRow r tid)
      | none => m)
    (b.tweets.foldl
      (fun m r =>
        match r.tweet_id with
        | some tid => tweetDictInsert m (mkTweetFromTweetRow r tid)
        | none => m)
      [])

/-- df_follows[['from_id', 'id']] as Follow rows. -/
def followsList (b : Batch) : List Follow :=
  b.follows.map (fun r => { follower_id := r.from_id, followee_id := r.id })

/-- df_likes[['original_user_id', 'tweet_id', 'collected_at']].dropna(). -/
def likesList (b : Batch) : List Like :=
  b.likes.filterMap (fun r =>
    match r.tweet_id, r.collected_at with
    | some tid, some c =>
        some { user_id := r.original_user_id, tweet_id := tid, collected_at := some c }
    | _, _ => none)

/-! ### The four insert statements against the FK-enforcing store -/

inductive LoadError where
  | fkViolation
deriving DecidableEq, Repr

def usersStep (db : DB) (b : Batch) : DB :=
  { db with users := upsertUsers db.users (userList b) }

def tweetFKokUsers (us : List User) (t : Tweet) : Bool :=
  usersHas us t.author_id &&
    (match t.retweet_of_user_id with
     | none => true
     | some r => usersHas us r)

/-- INSERT INTO Tweets ... ON CONFLICT (tweet_id) DO NOTHING; a conflicting
row is not inserted so its foreign keys are not checked. -/
def insertTweet (db : DB) (t : Tweet) : Except LoadError DB :=
  if tweetExists db t.tweet_id then Except.ok db
  else if tweetFKokUsers db.users t then
    Except.ok { db with tweets := db.tweets ++ [t] }
  else Except.error LoadError.fkViolation

def tweetsStep (db : DB) (b : Batch) : Except LoadError DB :=
  (tweetList b).foldlM insertTweet db

def followExists (db : DB) (f : Follow) : Bool :=
  db.follows.any (fun g => g.follower_id == f.follower_id && g.followee_id == f.followee_id)

/-- INSERT INTO Follows ... ON CONFLICT (follower_id, followee_id) DO NOTHING. -/
def insertFollow (db : DB) (f : Follow) : Except LoadError DB :=
  if followExists db f then Except.ok db
  else if usersHas db.users f.follower_id && usersHas db.users f.followee_id then
    Except.ok { db with follows := db.follows ++ [f] }
  else Except.error LoadError.fkViolation

def followsStep (db : DB) (b : Batch) : Except LoadError DB :=
  (followsList b).foldlM insertFollow db

def likeExists (db : DB) (lk : Like) : Bool :=
  db.likes.any (fun m => m.user_id == lk.user_id && m.tweet_id == lk.tweet_id)

/-- INSERT INTO Likes ... ON CONFLICT (user_id, tweet_id) DO NOTHING. -/
def insertLike (db : DB) (lk : Like) : Except LoadError DB :=
  if likeExists db lk then Except.ok db
  else if usersHas db.users lk.user_id && tweetsHas db.tweets lk.tweet_id then
    Except.ok { db with likes := db.likes ++ [lk] }
  else Except.error LoadError.fkViolation

def likesStep (db : DB) (b : Batch) : Except LoadError DB :=
  (likesList b).foldlM insertLike db

/-- The four steps of `populate_database` as the single transaction the code
runs between connect and `conn.commit()`. -/
def loadSteps (db : DB) (b : Batch) : Except LoadError DB := do
  let db2 ← tweetsStep (usersStep db b) b
  let db3 ← followsStep db2 b
  likesStep db3 b

/-- `populate_database`: commit on success, `conn.rollback()` (store
unchanged) on error. -/
def populate_database (db : DB) (b : Batch) : DB :=
  match loadSteps db b with
  | Except.ok d => d
  | Except.error _ => db

/-! ### DELETE FROM Users WHERE user_id = x, with the schema's cascades -/

def deleteUser (db : DB) (x : Int) : DB :=
  { users := db.users.filter (fun u => u.user_id != x)
    tweets := (db.tweets.filter (fun t => t.author_id != x)).map
      (fun t =>
        if t.retweet_of_user_id == some x then { t with retweet_of_user_id := none } else t)
    follows := db.follows.filter (fun f => f.follower_id != x && f.followee_id != x)
    likes := db.likes.filter (fun lk =>
      lk.user_id != x &&
        !(((db.tweets.filter (fun t => t.author_id == x)).map (fun t => t.tweet_id)).contains
          lk.tweet_id)) }

inductive Op where
  | load (b : Batch)
  | del (x : Int)

def applyOp (db : DB) (op : Op) : DB :=
  match op with
  | Op.load b => populate_database db b
  | Op.del x => deleteUser db x

def runOps (ops : List Op) : DB := ops.foldl applyOp emptyDB

/-! ### The feed engine -/

structure Post where
  tweet_id : Int
  author_id : Int
  author_username : Option String
  full_text : Option String
  created_at : Option Int
  retweet_of_user_id : Option Int
  retweet_of_username : Option String
deriving DecidableEq, Repr

/-- ORDER BY created_at DESC under Postgres semantics: a NULL created_at
sorts first (NULLS FIRST is the default for DESC). -/
def caGE : Option Int → Option Int → Bool
  | none, _ => true
  | some _, none => false
  | some a, some b => b ≤ a

def postLE (p q : Post) : Bool := caGE p.created_at q.created_at

/-- Stable insertion into a list sorted by `le`. -/
def insertS (le : α → α → Bool) (x : α) : List α → List α
  | [] => [x]
  | y :: ys => if le x y then x :: y :: ys else y :: insertS le x ys

/-- Stable sort: a deterministic refinement of the SQL ORDER BY, keeping
rows with equal keys in stored order. -/
def sortBy (le : α → α → Bool) (l : List α) : List α :=
  l.foldr (insertS le) []

/-- t.author_id IN (SELECT followee_id FROM Follows WHERE follower_id = uid
UNION SELECT uid). -/
def isCandidate (db : DB) (uid a : Int) : Bool :=
  a == uid || db.follows.any (fun f => f.follower_id == uid && f.followee_id == a)

/-- JOIN Users u ON t.author_id = u.user_id (inner: drops the row if the
author is missing) and LEFT JOIN Users ru ON t.retweet_of_user_id =
ru.user_id. -/
def joinPost (db : DB) (t : Tweet) : Option Post :=
  match getUserById db t.author_id with
  | none => none
  | some u =>
      some { tweet_id := t.tweet_id
             author_id := t.author_id
             author_username := u.username
             full_text := t.full_text
             created_at := t.created_at
             retweet_of_user_id := t.retweet_of_user_id
             retweet_of_username :=
               t.retweet_of_user_id.bind (fun r => (getUserById db r).bind (fun ru => ru.username)) }

/-- The rows of `get_user_feed` before LIMIT. -/
def feedRows (db : DB) (uid : Int) : List Post :=
  sortBy postLE
    ((db.tweets.filter (fun t => isCandidate db uid t.author_id)).filterMap (joinPost db))

inductive QueryError where
  | limitMustNotBeNegative
deriving DecidableEq, Repr

/-- `get_user_feed(user_id, limit)`: the LIMIT parameter is handed to
Postgres unvalidated; Postgres rejects a negative LIMIT and accepts zero. -/
def get_user_feed (db : DB) (uid : Int) (limit : Int) : Except QueryError (List Post) :=
  if limit < 0 then Except.error QueryError.limitMustNotBeNegative
  else Except.ok ((feedRows db uid).take limit.toNat)

/-- The Python signature defaults limit to 100. -/
def get_user_feed_default (db : DB) (uid : Int) : Except QueryError (List Post) :=
  get_user_feed db uid 100

/-- The rows of `get_user_feed_until` before LIMIT: the extra conjunct
t.created_at <= enddate (NULL created_at fails the SQL comparison). -/
def feedRowsUntil (db : DB) (uid : Int) (enddate : Int) : List Post :=
  sortBy postLE
    ((db.tweets.filter (fun t =>
        isCandidate db uid t.author_id &&
          (match t.created_at with
           | some c => c ≤ enddate
           | none => false))).filterMap (joinPost db))

def get_user_feed_until (db : DB) (uid : Int) (enddate : Int) (limit : Int) :
    Except QueryError (List Post) :=
  if limit < 0 then Except.error QueryError.limitMustNotBeNegative
  else Except.ok ((feedRowsUntil db uid enddate).take limit.toNat)

/-- Modelled from the spec: `get_user_feed_until_between` is called by
src/test_databse.py but its implementation is not among the source files;
per the spec the optional time window filters by
start <= created_at <= end when both bounds are given (inclusive on both
ends) and by created_at <= end when only the end bound is given. -/
def get_user_feed_until_between (db : DB) (uid : Int) (startdate : Option Int)
    (enddate : Int) (limit : Int) : Except QueryError (List Post) :=
  if limit < 0 then Except.error QueryError.limitMustNotBeNegative
  else Except.ok ((sortBy postLE
    ((db.tweets.filter (fun t =>
        isCandidate db uid t.author_id &&
          (match t.created_at with
           | some c =>
               (match startdate with
                | some s => s ≤ c && c ≤ enddate
                | none => c ≤ enddate)
           | none => false))).filterMap (joinPost db))).take limit.toNat)

/-! ### Properties of the store and claim-level predicates -/

/-- Every stored Tweet's author resolves to a stored User. -/
def AuthorsOk (db : DB) : Prop :=
  ∀ t ∈ db.tweets, userExists db t.author_id = true

/-- The row for id `p.1` is present and its username is unchanged by a
COALESCE update with `p.2`. -/
def usernameFixed (us : List User) (p : Int × Option String) : Prop :=
  us.any (fun u => u.user_id == p.1) = true ∧
    ∀ u ∈ us, u.user_id = p.1 → coalesce u.username p.2 = u.username

def pairwiseB (r : α → α → Bool) : List α → Bool
  | [] => true
  | x :: xs => xs.all (r x) && pairwiseB r xs

/-- The ordering asserted by the spec: created_at non-increasing and, on
equal created_at, the larger tweet_id first. -/
def claimTieOrder (p q : Post) : Bool :=
  caGE p.created_at q.created_at && (p.created_at != q.created_at || q.tweet_id < p.tweet_id)

def withinEnd (e : Int) : Option Int → Bool
  | some c => c ≤ e
  | none => false

def withinBoth (s e : Int) : Option Int → Bool
  | some c => s ≤ c && c ≤ e
  | none => false

def isOkResult : Except QueryError (List Post) → Bool
  | Except.ok _ => true
  | Except.error _ => false

/-! ### Concrete stores and batches used as witnesses and counterexamples -/

/-- The store of spec section 8: Users 1:"a", 2:"b", 3:"c"; Follow 1→2;
Tweets 100 (author 2, T0 = 1000) and 101 (author 3, T0+1). -/
def scenario8DB : DB :=
  { users := [⟨1, some "a"⟩, ⟨2, some "b"⟩, ⟨3, some "c"⟩]
    tweets := [⟨100, 2, some "hi", some 1000, none, none⟩,
               ⟨101, 3, some "yo", some 1001, none, none⟩]
    follows := [⟨1, 2⟩]
    likes := [] }

/-- The Post returned for user 1 (and 2) on `scenario8DB`. -/
def post100 : Post :=
  { tweet_id := 100, author_id := 2, author_username := some "b", full_text := some "hi"
    created_at := some 1000, retweet_of_user_id := none, retweet_of_username := none }

/-- Two tweets by followee 2 sharing created_at = 500, stored with the
smaller tweet_id first. -/
def tieDB : DB :=
  { users := [⟨1, none⟩, ⟨2, some "b"⟩]
    tweets := [⟨100, 2, none, some 500, none, none⟩,
               ⟨101, 2, none, some 500, none, none⟩]
    follows := [⟨1, 2⟩]
    likes := [] }

def tiePostA : Post :=
  { tweet_id := 100, author_id := 2, author_username := some "b", full_text := none
    created_at := some 500, retweet_of_user_id := none, retweet_of_username := none }

def tiePostB : Post :=
  { tweet_id := 101, author_id := 2, author_username := some "b", full_text := none
    created_at := some 500, retweet_of_user_id := none, retweet_of_username := none }

/-- A user whose only tweet is a self-retweet marker: author and retweet
target are both user 1. -/
def selfRTDB : DB :=
  { users := [⟨1, some "x"⟩]
    tweets := [⟨10, 1, some "t", some 5, some 1, none⟩]
    follows := [], likes := [] }

/-- User 2 retweeted user 1: deleting 1 must keep tweet 10 with the marker
cleared. -/
def rtDB : DB :=
  { users := [⟨1, some "x"⟩, ⟨2, some "y"⟩]
    tweets := [⟨10, 2, some "rt", some 5, some 1, none⟩]
    follows := [⟨2, 1⟩]
    likes := [⟨2, 10, some 7⟩] }

def rtTweet : Tweet := ⟨10, 2, some "rt", some 5, some 1, none⟩

/-- A one-tweet batch: author 2 appears only inside the tweets stream. -/
def wbatch1 : Batch :=
  { follows := [], likes := [],
    tweets := [⟨some 100, 2, some "b", some "hi", some 1000, none, some 2000⟩] }

def wtweet1 : Tweet := ⟨100, 2, some "hi", some 1000, none, some 2000⟩

/-- User 5 is first scanned as a follows-file follower (no username there);
a later tweets row carries screen_name "alice" for the same id. -/
def wbatch10 : Batch :=
  { follows := [⟨5, 2, some "bob"⟩]
    likes := []
    tweets := [⟨some 300, 5, some "alice", some "t", some 1, none, none⟩] }

/-! ## Theorems -/

/-! ### C9: the load is atomic -/

/-- C9: the bulk loader's four steps (Users, Tweets, Follows, Likes) form one
atomic unit: for every batch and starting store either all four steps of
`loadSteps` commit and `populate_database` returns their combined result, or
on an error `populate_database` leaves the store unchanged (the rollback
branch). -/
theorem populate_atomic (db : DB) (b : Batch) :
    (∃ d, loadSteps db b = Except.ok d ∧ populate_database db b = d) ∨
    (∃ e, loadSteps db b = Except.error e ∧ populate_database db b = db) := by
  cases h : loadSteps db b with
  | ok d => exact Or.inl ⟨d, rfl, by simp [populate_database, h]⟩
  | error e => exact Or.inr ⟨e, rfl, by simp [populate_database, h]⟩

/-! ### C5: a User upsert never erases a recorded non-null username -/

/-- C5: upserting a User row whose id already has a recorded non-null
username never erases it, whatever the incoming username is — the COALESCE
in the loader's Users insert prefers the existing value. -/
theorem upsert_preserves_username (us : List User) (uid : Int) (s : String)
    (incoming : Option String)
    (h : lookupUsername us uid = some (some s)) :
    lookupUsername (upsertUser us (uid, incoming)) uid = some (some s) := by
  unfold lookupUsername at h ⊢
  rw [Option.map_eq_some'] at h
  obtain ⟨u, hfind, huname⟩ := h
  have hmem := List.mem_of_find?_eq_some hfind
  have hpu := List.find?_some hfind
  have hany : us.any (fun v : User => v.user_id == uid) = true :=
    List.any_eq_true.2 ⟨u, hmem, hpu⟩
  have hstep : upsertUser us (uid, incoming) =
      us.map (fun v : User =>
        if v.user_id == uid then { v with username := coalesce v.username incoming } else v) := by
    simp [upsertUser, hany]
  rw [hstep, List.find?_map]
  have hcomp :
      ((fun v : User => v.user_id == uid) ∘
        (fun v : User =>
          if v.user_id == uid then { v with username := coalesce v.username incoming } else v)) =
      fun v : User => v.user_id == uid := by
    funext v
    by_cases hv : (v.user_id == uid) = true
    · simp [Function.comp, hv]
    · simp [Function.comp, hv]
  rw [hcomp, hfind]
  simp only [Option.map_some']
  have : (u.user_id == uid) = true := hpu
  simp [this, huname, coalesce]

/-- Witness for C5 at the claim's own scenario: upsert(7, "alice") then
upsert(7, null) leaves username "alice". -/
theorem upsert_preserves_username_witness :
    lookupUsername (upsertUser (upsertUser [] ((7 : Int), some "alice")) ((7 : Int), none)) 7 =
      some (some "alice") :=
  upsert_preserves_username (upsertUser [] ((7 : Int), some "alice")) 7 "alice" none (by decide)

/-! ### C7: cascades of a User delete -/

theorem find?_filter_of {l : List α} {p q : α → Bool} {a : α}
    (h : l.find? p = some a) (hq : q a = true) :
    (l.filter q).find? p = some a := by
  induction l with
  | nil => simp at h
  | cons x xs ih =>
      by_cases hpx : p x = true
      · rw [List.find?_cons_of_pos _ hpx] at h
        obtain rfl : x = a := by injection h
        rw [List.filter_cons_of_pos hq, List.find?_cons_of_pos _ hpx]
      · rw [List.find?_cons_of_neg _ (by simpa using hpx)] at h
        by_cases hqx : q x = true
        · rw [List.filter_cons_of_pos hqx, List.find?_cons_of_neg _ (by simpa using hpx)]
          exact ih h
        · rw [List.filter_cons_of_neg (by simpa using hqx)]
          exact ih h

/-- C7 (amended): deleting User X removes every Tweet authored by X, every
Follow edge mentioning X and every Like by X, and a Tweet with
retweet_of_user_id = X whose author is not X survives with the marker
cleared to null.  (A tweet with author X is deleted even when it also has
retweet_of_user_id = X — see the counterexample.) -/
theorem delete_cascades (db : DB) (x : Int) :
    (∀ t ∈ (deleteUser db x).tweets, t.author_id ≠ x) ∧
    (∀ f ∈ (deleteUser db x).follows, f.follower_id ≠ x ∧ f.followee_id ≠ x) ∧
    (∀ lk ∈ (deleteUser db x).likes, lk.user_id ≠ x) ∧
    (∀ tid t, getTweetById db tid = some t → t.retweet_of_user_id = some x →
       t.author_id ≠ x →
       getTweetById (deleteUser db x) tid = some { t with retweet_of_user_id := none }) := by
  refine ⟨?_, ?_, ?_, ?_⟩
  · intro t ht
    simp only [deleteUser, List.mem_map, List.mem_filter] at ht
    obtain ⟨t0, ⟨_, ht0⟩, rfl⟩ := ht
    have : t0.author_id ≠ x := by simpa using ht0
    by_cases hr : (t0.retweet_of_user_id == some x) = true <;> simp [hr, this]
  · intro f hf
    simp only [deleteUser, List.mem_filter] at hf
    obtain ⟨-, hf⟩ := hf
    rw [Bool.and_eq_true] at hf
    exact ⟨by simpa using hf.1, by simpa using hf.2⟩
  · intro lk hlk
    simp only [deleteUser, List.mem_filter] at hlk
    obtain ⟨-, hlk⟩ := hlk
    rw [Bool.and_eq_true] at hlk
    simpa using hlk.1
  · intro tid t hfind hrt hax
    unfold getTweetById at hfind ⊢
    show (((db.tweets.filter _).map _).find? _) = _
    rw [List.find?_map]
    have hkeep : (fun t : Tweet => t.author_id != x) t = true := by simpa using hax
    have hcomp :
        ((fun v : Tweet => v.tweet_id == tid) ∘
          (fun v : Tweet =>
            if v.retweet_of_user_id == some x then { v with retweet_of_user_id := none }
            else v)) =
        fun v : Tweet => v.tweet_id == tid := by
      funext v
      by_cases hv : (v.retweet_of_user_id == some x) = true
      · simp [Function.comp, hv]
      · simp [Function.comp, hv]
    rw [hcomp, find?_filter_of hfind hkeep]
    simp [hrt]

/-- C7 counterexample: in `selfRTDB` tweet 10 has retweet_of_user_id = 1,
yet after deleting User 1 no tweet survives — the author cascade wins, so
the claim's "still exists with the field cleared" is false as stated. -/
theorem delete_cascades_cex :
    selfRTDB.tweets.any (fun t => t.retweet_of_user_id == some 1) = true ∧
    (deleteUser selfRTDB 1).tweets = [] := by decide

/-- Witness for C7 (amended) on `rtDB`: tweet 10 (author 2, retweet of 1)
survives the deletion of User 1 with the marker cleared. -/
theorem delete_cascades_witness :
    getTweetById (deleteUser rtDB 1) 10 = some { rtTweet with retweet_of_user_id := none } :=
  (delete_cascades rtDB 1).2.2.2 10 rtTweet (by decide) rfl (by decide)

/-! ### C4: the LIMIT argument -/

/-- C4 (amended): `get_user_feed` returns at most `limit` posts and at most
100 when the Python default is used; a negative limit fails (Postgres
rejects a negative LIMIT), but a limit of zero succeeds with the empty list
rather than failing — there is no InvalidArgument validation in the code. -/
theorem feed_limit (db : DB) (uid : Int) (limit : Int) :
    (limit < 0 → get_user_feed db uid limit = Except.error QueryError.limitMustNotBeNegative) ∧
    (∀ posts, get_user_feed db uid limit = Except.ok posts → posts.length ≤ limit.toNat) ∧
    (∀ posts, get_user_feed_default db uid = Except.ok posts → posts.length ≤ 100) ∧
    (0 ≤ limit → isOkResult (get_user_feed db uid limit) = true) := by
  refine ⟨?_, ?_, ?_, ?_⟩
  · intro h
    simp [get_user_feed, h]
  · intro posts h
    by_cases hneg : limit < 0
    · simp [get_user_feed, hneg] at h
    · simp only [get_user_feed, if_neg hneg] at h
      obtain rfl : (feedRows db uid).take limit.toNat = posts := by injection h
      exact List.length_take_le _ _
  · intro posts h
    have h100 : ¬ ((100 : Int) < 0) := by decide
    simp only [get_user_feed_default, get_user_feed, if_neg h100] at h
    obtain rfl : (feedRows db uid).take (100 : Int).toNat = posts := by injection h
    exact List.length_take_le _ _
  · intro h
    simp [get_user_feed, isOkResult, Int.not_lt.2 h]

/-- Witness for C4 (amended): on the section-8 store a negative limit
errors, limit 10 succeeds with one post, and the default call is capped at
100. -/
theorem feed_limit_witness :
    get_user_feed scenario8DB 1 (-1) = Except.error QueryError.limitMustNotBeNegative ∧
    ([post100] : List Post).length ≤ (10 : Int).toNat ∧
    ([post100] : List Post).length ≤ 100 ∧
    isOkResult (get_user_feed scenario8DB 1 10) = true :=
  ⟨(feed_limit scenario8DB 1 (-1)).1 (by decide),
   (feed_limit scenario8DB 1 10).2.1 [post100] (by rfl),
   (feed_limit scenario8DB 1 10).2.2.1 [post100] (by rfl),
   (feed_limit scenario8DB 1 10).2.2.2 (by decide)⟩

/-- C4 counterexample: limit 0 does not fail with an error — the call
returns the empty list. -/
theorem feed_limit_cex : get_user_feed scenario8DB 1 0 = Except.ok [] := rfl

/-! ### Sorting lemmas for the feed queries -/

theorem mem_insertS {le : α → α → Bool} {x a : α} :
    ∀ {l : List α}, a ∈ insertS le x l ↔ a = x ∨ a ∈ l
  | [] => by simp [insertS]
  | y :: ys => by
      unfold insertS
      by_cases hxy : le x y = true
      · simp [hxy]
      · simp only [if_neg hxy, List.mem_cons, mem_insertS (l := ys)]
        tauto

theorem mem_sortBy {le : α → α → Bool} {a : α} :
    ∀ {l : List α}, a ∈ sortBy le l ↔ a ∈ l
  | [] => Iff.rfl
  | x :: xs => by
      show a ∈ insertS le x (sortBy le xs) ↔ _
      rw [mem_insertS, mem_sortBy (l := xs)]
      simp

theorem pairwise_insertS {le : α → α → Bool}
    (trans : ∀ a b c, le a b = true → le b c = true → le a c = true)
    (total : ∀ a b, (le a b || le b a) = true)
    (x : α) :
    ∀ {l : List α}, l.Pairwise (fun a b => le a b = true) →
      (insertS le x l).Pairwise (fun a b => le a b = true)
  | [], _ => by simp [insertS]
  | y :: ys, h => by
      rw [List.pairwise_cons] at h
      obtain ⟨hy, hys⟩ := h
      unfold insertS
      by_cases hxy : le x y = true
      · rw [if_pos hxy, List.pairwise_cons]
        refine ⟨?_, List.pairwise_cons.2 ⟨hy, hys⟩⟩
        intro z hz
        rcases List.mem_cons.1 hz with rfl | hz2
        · exact hxy
        · exact trans x y z hxy (hy z hz2)
      · rw [if_neg hxy, List.pairwise_cons]
        refine ⟨?_, pairwise_insertS trans total x hys⟩
        intro z hz
        rcases mem_insertS.1 hz with rfl | hz2
        · have := total z y
          rw [Bool.or_eq_true] at this
          rcases this with h1 | h1
          · exact absurd h1 hxy
          · exact h1
        · exact hy z hz2

theorem pairwise_sortBy {le : α → α → Bool}
    (trans : ∀ a b c, le a b = true → le b c = true → le a c = true)
    (total : ∀ a b, (le a b || le b a) = true) :
    ∀ (l : List α), (sortBy le l).Pairwise (fun a b => le a b = true)
  | [] => List.Pairwise.nil
  | x :: xs => pairwise_insertS trans total x (pairwise_sortBy trans total xs)

theorem caGE_trans (a b c : Option Int) :
    caGE a b = true → caGE b c = true → caGE a c = true := by
  cases a <;> cases b <;> cases c <;> simp [caGE]
  omega

theorem caGE_total (a b : Option Int) : (caGE a b || caGE b a) = true := by
  cases a <;> cases b <;> simp [caGE]
  omega

theorem postLE_trans (p q r : Post) :
    postLE p q = true → postLE q r = true → postLE p r = true :=
  caGE_trans p.created_at q.created_at r.created_at

theorem postLE_total (p q : Post) : (postLE p q || postLE q p) = true :=
  caGE_total p.created_at q.created_at

/-- The join keeps the tweet's identifying fields unchanged. -/
theorem joinPost_fields (db : DB) (t : Tweet) (p : Post) (h : joinPost db t = some p) :
    p.author_id = t.author_id ∧ p.created_at = t.created_at ∧ p.tweet_id = t.tweet_id := by
  unfold joinPost at h
  cases hu : getUserById db t.author_id with
  | none => rw [hu] at h; exact absurd h (by simp)
  | some u =>
      rw [hu] at h
      injection h with h2
      subst h2
      exact ⟨rfl, rfl, rfl⟩

/-! ### C2: feed posts come from followees or the user -/

/-- C2: every Post returned by `get_user_feed` has an author that is the
user or one of the user's followees — the SQL candidate set is
followees(user) UNION {user}. -/
theorem feed_authors (db : DB) (uid limit : Int) (posts : List Post) (p : Post)
    (h : get_user_feed db uid limit = Except.ok posts) (hp : p ∈ posts) :
    p.author_id = uid ∨ p.author_id ∈ get_followees db uid := by
  by_cases hneg : limit < 0
  · simp [get_user_feed, hneg] at h
  · simp only [get_user_feed, if_neg hneg] at h
    obtain rfl : (feedRows db uid).take limit.toNat = posts := by injection h
    have hp2 : p ∈ feedRows db uid := List.mem_of_mem_take hp
    have hp3 : p ∈ (db.tweets.filter fun t => isCandidate db uid t.author_id).filterMap
        (joinPost db) := mem_sortBy.1 hp2
    rw [List.mem_filterMap] at hp3
    obtain ⟨t, ht, hjoin⟩ := hp3
    rw [List.mem_filter] at ht
    obtain ⟨-, hcand⟩ := ht
    have hauthor : p.author_id = t.author_id := (joinPost_fields db t p hjoin).1
    unfold isCandidate at hcand
    rw [Bool.or_eq_true] at hcand
    rcases hcand with he | hf
    · left
      rw [hauthor]
      simpa using he
    · right
      rw [List.any_eq_true] at hf
      obtain ⟨f, hfmem, hff⟩ := hf
      rw [Bool.and_eq_true] at hff
      rw [hauthor]
      unfold get_followees
      rw [List.mem_filterMap]
      refine ⟨f, hfmem, ?_⟩
      have h1 : (f.follower_id == uid) = true := hff.1
      have h2 : f.followee_id = t.author_id := by simpa using hff.2
      simp [h1, h2]

/-- Witness for C2 on the section-8 store: the single returned post is by
followee 2. -/
theorem feed_authors_witness :
    post100.author_id = 1 ∨ post100.author_id ∈ get_followees scenario8DB 1 :=
  feed_authors scenario8DB 1 100 [post100] post100 (by rfl) (by simp)

/-! ### C3: ordering of the feed -/

/-- C3 (amended): the feed is sorted with created_at non-increasing (a NULL
created_at sorts first); the order of posts with equal created_at is the
stored-row order — the SQL has no tie-break — and the query is a pure
function of the store, so repeated calls on unchanged data coincide. -/
theorem feed_sorted (db : DB) (uid limit : Int) (posts : List Post)
    (h : get_user_feed db uid limit = Except.ok posts) :
    posts.Pairwise (fun p q => postLE p q = true) := by
  by_cases hneg : limit < 0
  · simp [get_user_feed, hneg] at h
  · simp only [get_user_feed, if_neg hneg] at h
    obtain rfl : (feedRows db uid).take limit.toNat = posts := by injection h
    exact List.Pairwise.sublist (List.take_sublist _ _)
      (pairwise_sortBy postLE_trans postLE_total _)

/-- Witness for C3 (amended) on `tieDB`. -/
theorem feed_sorted_witness :
    ([tiePostA, tiePostB] : List Post).Pairwise (fun p q => postLE p q = true) :=
  feed_sorted tieDB 1 100 [tiePostA, tiePostB] (by rfl)

/-- C3 counterexample: on `tieDB` the two posts share created_at = 500 and
the feed returns the smaller tweet_id 100 first (stored order), violating
the claimed tweet_id-descending tie-break. -/
theorem feed_tie_order_cex :
    get_user_feed tieDB 1 100 = Except.ok [tiePostA, tiePostB] ∧
    pairwiseB claimTieOrder [tiePostA, tiePostB] = false :=
  ⟨rfl, by decide⟩

/-! ### C8: the optional time window -/

/-- C8: the end-only window keeps exactly the posts with
created_at <= end (`get_user_feed_until`); the modelled two-bound variant
keeps start <= created_at <= end inclusively, and with no start bound it
coincides with the end-only query; `get_user_feed` applies no temporal
filter (every joined candidate tweet appears in its rows); and on the
section-8 store the feed of user 1 bounded by T0 - 1 is empty. -/
theorem feed_time_window :
    (∀ (db : DB) (uid e limit : Int) (posts : List Post) (p : Post),
        get_user_feed_until db uid e limit = Except.ok posts → p ∈ posts →
        withinEnd e p.created_at = true) ∧
    (∀ (db : DB) (uid s e limit : Int) (posts : List Post) (p : Post),
        get_user_feed_until_between db uid (some s) e limit = Except.ok posts → p ∈ posts →
        withinBoth s e p.created_at = true) ∧
    (∀ (db : DB) (uid e limit : Int),
        get_user_feed_until_between db uid none e limit = get_user_feed_until db uid e limit) ∧
    (∀ (db : DB) (uid : Int) (t : Tweet) (p : Post),
        t ∈ db.tweets → isCandidate db uid t.author_id = true → joinPost db t = some p →
        p ∈ feedRows db uid) ∧
    get_user_feed_until scenario8DB 1 999 100 = Except.ok [] := by
  refine ⟨?_, ?_, ?_, ?_, rfl⟩
  · intro db uid e limit posts p h hp
    by_cases hneg : limit < 0
    · simp [get_user_feed_until, hneg] at h
    · simp only [get_user_feed_until, if_neg hneg] at h
      obtain rfl : (feedRowsUntil db uid e).take limit.toNat = posts := by injection h
      have hp2 := List.mem_of_mem_take hp
      have hp3 := mem_sortBy.1 hp2
      rw [List.mem_filterMap] at hp3
      obtain ⟨t, ht, hjoin⟩ := hp3
      rw [List.mem_filter, Bool.and_eq_true] at ht
      have hca : p.created_at = t.created_at := (joinPost_fields db t p hjoin).2.1
      rw [hca]
      exact ht.2.2
  · intro db uid s e limit posts p h hp
    by_cases hneg : limit < 0
    · simp [get_user_feed_until_between, hneg] at h
    · simp only [get_user_feed_until_between, if_neg hneg] at h
      obtain rfl := (by injection h :
        (sortBy postLE ((db.tweets.filter _).filterMap (joinPost db))).take limit.toNat = posts)
      have hp2 := List.mem_of_mem_take hp
      have hp3 := mem_sortBy.1 hp2
      rw [List.mem_filterMap] at hp3
      obtain ⟨t, ht, hjoin⟩ := hp3
      rw [List.mem_filter, Bool.and_eq_true] at ht
      have hca : p.created_at = t.created_at := (joinPost_fields db t p hjoin).2.1
      rw [hca]
      exact ht.2.2
  · intro db uid e limit
    rfl
  · intro db uid t p ht hcand hjoin
    unfold feedRows
    rw [mem_sortBy, List.mem_filterMap]
    exact ⟨t, List.mem_filter.2 ⟨ht, hcand⟩, hjoin⟩

/-- Witness for C8: on the section-8 store the post returned with end bound
T0 = 1000 (and with window [900, 1000]) indeed satisfies the bounds. -/
theorem feed_time_window_witness :
    withinEnd 1000 post100.created_at = true ∧ withinBoth 900 1000 post100.created_at = true :=
  ⟨feed_time_window.1 scenario8DB 1 1000 100 [post100] post100 (by rfl) (by simp),
   feed_time_window.2.1 scenario8DB 1 900 1000 100 [post100] post100 (by rfl) (by simp)⟩

/-! ### Generic helpers -/

theorem any_eq_isSome_find? {p : α → Bool} :
    ∀ (l : List α), l.any p = (l.find? p).isSome
  | [] => rfl
  | x :: xs => by
      by_cases h : p x = true
      · simp [List.any_cons, h, List.find?_cons_of_pos _ h]
      · simp only [List.any_cons, List.find?_cons_of_neg _ (by simpa using h),
          Bool.eq_false_iff.2 (by simpa using h) ]
        rw [Bool.false_or]
        exact any_eq_isSome_find? xs

/-! ### The Users upsert: presence, lookup and fixpoints -/

theorem coalesce_fix_self (v : Option String) : coalesce v v = v := by
  cases v <;> rfl

theorem coalesce_fix_once (a v : Option String) :
    coalesce (coalesce a v) v = coalesce a v := by
  cases a <;> cases v <;> rfl

theorem coalesce_fix_step (a v w : Option String) (h : coalesce a v = a) :
    coalesce (coalesce a w) v = coalesce a w := by
  cases a with
  | some s => rfl
  | none =>
      have hv : v = none := h
      subst hv
      cases w <;> rfl

theorem upsertUser_map_id (p : Int × Option String) (u : User) :
    (if u.user_id == p.1 then { u with username := coalesce u.username p.2 } else u).user_id =
      u.user_id := by
  by_cases h : (u.user_id == p.1) = true <;> simp [h]

theorem usersHas_upsertUser (us : List User) (p : Int × Option String) (k : Int)
    (h : usersHas us k = true) : usersHas (upsertUser us p) k = true := by
  unfold upsertUser
  by_cases hp : us.any (fun u => u.user_id == p.1) = true
  · rw [if_pos hp]
    unfold usersHas at h ⊢
    rw [List.any_map]
    have : ((fun u : User => u.user_id == k) ∘ fun u : User =>
        if u.user_id == p.1 then { u with username := coalesce u.username p.2 } else u) =
        fun u : User => u.user_id == k := by
      funext v
      simp only [Function.comp_apply, upsertUser_map_id]
    rw [this]
    exact h
  · rw [if_neg hp]
    unfold usersHas at h ⊢
    rw [List.any_append, h, Bool.true_or]

theorem usersHas_upsertUser_self (us : List User) (p : Int × Option String) :
    usersHas (upsertUser us p) p.1 = true := by
  unfold upsertUser
  by_cases hp : us.any (fun u => u.user_id == p.1) = true
  · rw [if_pos hp]
    unfold usersHas
    rw [List.any_map]
    have : ((fun u : User => u.user_id == p.1) ∘ fun u : User =>
        if u.user_id == p.1 then { u with username := coalesce u.username p.2 } else u) =
        fun u : User => u.user_id == p.1 := by
      funext v
      simp only [Function.comp_apply, upsertUser_map_id]
    rw [this]
    exact hp
  · rw [if_neg hp]
    unfold usersHas
    rw [List.any_append]
    simp

theorem usersHas_upsertUsers (l : List (Int × Option String)) :
    ∀ (us : List User) (k : Int), usersHas us k = true →
      usersHas (upsertUsers us l) k = true := by
  induction l with
  | nil => intro us k h; exact h
  | cons q t ih => intro us k h; exact ih (upsertUser us q) k (usersHas_upsertUser us q k h)

theorem usersHas_upsertUsers_of_key (l : List (Int × Option String)) :
    ∀ (us : List User) (k : Int), l.any (fun p => p.1 == k) = true →
      usersHas (upsertUsers us l) k = true := by
  induction l with
  | nil => intro us k h; simp at h
  | cons q t ih =>
      intro us k h
      rw [List.any_cons, Bool.or_eq_true] at h
      rcases h with h | h
      · have hk : q.1 = k := by simpa using h
        subst hk
        exact usersHas_upsertUsers t (upsertUser us q) q.1 (usersHas_upsertUser_self us q)
      · exact ih (upsertUser us q) k h

theorem find?_user_upsertUser_ne (us : List User) (q : Int × Option String) (k : Int)
    (hne : q.1 ≠ k) :
    (upsertUser us q).find? (fun u => u.user_id == k) =
      us.find? (fun u => u.user_id == k) := by
  unfold upsertUser
  by_cases hp : us.any (fun u => u.user_id == q.1) = true
  · rw [if_pos hp, List.find?_map]
    have hcomp : ((fun u : User => u.user_id == k) ∘ fun u : User =>
        if u.user_id == q.1 then { u with username := coalesce u.username q.2 } else u) =
        fun u : User => u.user_id == k := by
      funext v
      simp only [Function.comp_apply, upsertUser_map_id]
    rw [hcomp]
    cases hfind : us.find? (fun u => u.user_id == k) with
    | none => rfl
    | some u =>
        have hk : u.user_id = k := by simpa using List.find?_some hfind
        have hne2 : ¬ ((u.user_id == q.1) = true) := by
          rw [hk]
          simp
          exact fun h => hne h.symm
        simp only [Option.map_some']
        rw [if_neg hne2]
  · rw [if_neg hp, List.find?_append]
    have : ([{ user_id := q.1, username := q.2 } ] : List User).find?
        (fun u => u.user_id == k) = none := by
      simp [List.find?_cons, beq_eq_false_iff_ne.2 hne]
    rw [this, Option.or_none]

theorem find?_user_upsertUser_absent (us : List User) (q : Int × Option String)
    (h : usersHas us q.1 = false) :
    (upsertUser us q).find? (fun u => u.user_id == q.1) =
      some { user_id := q.1, username := q.2 } := by
  unfold upsertUser
  unfold usersHas at h
  rw [h]
  rw [if_neg (by simp : ¬ (false = true)), List.find?_append]
  have hnone : us.find? (fun u => u.user_id == q.1) = none := by
    rw [List.find?_eq_none]
    intro u hu hpu
    rw [List.any_eq_false] at h
    exact h u hu hpu
  rw [hnone]
  simp

theorem usersHas_upsertUser_ne_false (us : List User) (q : Int × Option String) (k : Int)
    (hne : q.1 ≠ k) (h : usersHas us k = false) :
    usersHas (upsertUser us q) k = false := by
  unfold usersHas at h ⊢
  rw [any_eq_isSome_find?] at h ⊢
  rw [find?_user_upsertUser_ne us q k hne]
  exact h

theorem find?_user_upsertUsers_no_key (l : List (Int × Option String)) :
    ∀ (us : List User) (k : Int), (∀ p ∈ l, p.1 ≠ k) →
      (upsertUsers us l).find? (fun u => u.user_id == k) =
        us.find? (fun u => u.user_id == k) := by
  induction l with
  | nil => intro us k _; rfl
  | cons q t ih =>
      intro us k h
      have : (upsertUsers (upsertUser us q) t).find? (fun u => u.user_id == k) =
          (upsertUser us q).find? (fun u => u.user_id == k) :=
        ih (upsertUser us q) k (fun p hp => h p (List.mem_cons_of_mem q hp))
      rw [show upsertUsers us (q :: t) = upsertUsers (upsertUser us q) t from rfl, this]
      exact find?_user_upsertUser_ne us q k (h q (List.mem_cons_self q t))

theorem find?_user_upsertUsers_unique (l : List (Int × Option String)) :
    ∀ (us : List User) (k : Int) (v : Option String),
      l.find? (fun p => p.1 == k) = some (k, v) →
      (l.map Prod.fst).Nodup →
      usersHas us k = false →
      (upsertUsers us l).find? (fun u => u.user_id == k) =
        some { user_id := k, username := v } := by
  induction l with
  | nil => intro us k v h _ _; simp at h
  | cons q t ih =>
      intro us k v hfind hnodup habs
      rw [List.map_cons, List.nodup_cons] at hnodup
      by_cases hqk : (q.1 == k) = true
      · rw [List.find?_cons_of_pos _ (by exact hqk)] at hfind
        have hq : q = (k, v) := by injection hfind
        subst hq
        have hnot : ∀ p ∈ t, p.1 ≠ k := by
          intro p hp hpk
          exact hnodup.1 (by simpa [hpk] using List.mem_map_of_mem Prod.fst hp)
        rw [show upsertUsers us ((k, v) :: t) = upsertUsers (upsertUser us (k, v)) t from rfl]
        rw [find?_user_upsertUsers_no_key t (upsertUser us (k, v)) k hnot]
        exact find?_user_upsertUser_absent us (k, v) habs
      · rw [List.find?_cons_of_neg _ (by simpa using hqk)] at hfind
        rw [show upsertUsers us (q :: t) = upsertUsers (upsertUser us q) t from rfl]
        exact ih (upsertUser us q) k v hfind hnodup.2
          (usersHas_upsertUser_ne_false us q k (by simpa using hqk) habs)

/-! ### Fixpoints of the COALESCE upsert (idempotence of step 1) -/

theorem usernameFixed_upsert_of_fixed (us : List User) (p : Int × Option String)
    (h : usernameFixed us p) : upsertUser us p = us := by
  obtain ⟨hany, hfix⟩ := h
  unfold upsertUser
  rw [if_pos hany]
  have : ∀ u ∈ us,
      (if u.user_id == p.1 then { u with username := coalesce u.username p.2 } else u) = u := by
    intro u hu
    by_cases hk : (u.user_id == p.1) = true
    · rw [if_pos hk]
      have := hfix u hu (by simpa using hk)
      cases u with
      | mk i n => simp only at this ⊢; rw [this]
    · rw [if_neg hk]
  rw [List.map_congr_left this]
  exact List.map_id us

theorem usernameFixed_upsertUser_self (us : List User) (p : Int × Option String) :
    usernameFixed (upsertUser us p) p := by
  constructor
  · exact usersHas_upsertUser_self us p
  · intro u hu hk
    unfold upsertUser at hu
    by_cases hp : us.any (fun v => v.user_id == p.1) = true
    · rw [if_pos hp] at hu
      rw [List.mem_map] at hu
      obtain ⟨u0, _, rfl⟩ := hu
      by_cases h0 : (u0.user_id == p.1) = true
      · rw [if_pos h0]
        show coalesce (coalesce u0.username p.2) p.2 = _
        rw [coalesce_fix_once]
      · rw [if_neg h0] at hk ⊢
        exact absurd (by simpa using hk) (by simpa using h0)
    · rw [if_neg hp] at hu
      rw [List.mem_append] at hu
      rw [Bool.not_eq_true, List.any_eq_false] at hp
      rcases hu with hu | hu
      · exact absurd (by simpa using hk) (by simpa using hp u hu)
      · have : u = { user_id := p.1, username := p.2 } := by simpa using hu
        subst this
        show coalesce p.2 p.2 = p.2
        exact coalesce_fix_self p.2

theorem usernameFixed_mono (us : List User) (p q : Int × Option String)
    (h : usernameFixed us p) : usernameFixed (upsertUser us q) p := by
  obtain ⟨hany, hfix⟩ := h
  refine ⟨usersHas_upsertUser us q p.1 hany, ?_⟩
  intro u hu hk
  unfold upsertUser at hu
  by_cases hq : us.any (fun v => v.user_id == q.1) = true
  · rw [if_pos hq] at hu
    rw [List.mem_map] at hu
    obtain ⟨u0, hu0, rfl⟩ := hu
    by_cases h0 : (u0.user_id == q.1) = true
    · rw [if_pos h0]
      rw [if_pos h0] at hk
      show coalesce (coalesce u0.username q.2) p.2 = coalesce u0.username q.2
      exact coalesce_fix_step u0.username p.2 q.2 (hfix u0 hu0 (by simpa using hk))
    · rw [if_neg h0] at hk ⊢
      exact hfix u0 hu0 hk
  · rw [if_neg hq] at hu
    rw [List.mem_append] at hu
    rw [Bool.not_eq_true, List.any_eq_false] at hq
    rcases hu with hu | hu
    · exact hfix u hu hk
    · have hueq : u = { user_id := q.1, username := q.2 } := by simpa using hu
      subst hueq
      have hq1 : q.1 = p.1 := hk
      rw [List.any_eq_true] at hany
      obtain ⟨w, hw, hwk⟩ := hany
      have hwq : (w.user_id == q.1) = true := by
        have hwp : w.user_id = p.1 := by simpa using hwk
        simp [hwp, hq1]
      exact absurd hwq (by simpa using hq w hw)

theorem usernameFixed_upsertUsers (l : List (Int × Option String)) :
    ∀ (us : List User) (p : Int × Option String), usernameFixed us p →
      usernameFixed (upsertUsers us l) p := by
  induction l with
  | nil => intro us p h; exact h
  | cons q t ih => intro us p h; exact ih (upsertUser us q) p (usernameFixed_mono us p q h)

theorem usernameFixed_after (l : List (Int × Option String)) :
    ∀ (us : List User), ∀ p ∈ l, usernameFixed (upsertUsers us l) p := by
  induction l with
  | nil => intro us p hp; simp at hp
  | cons q t ih =>
      intro us p hp
      rcases List.mem_cons.1 hp with rfl | hp2
      · exact usernameFixed_upsertUsers t (upsertUser us p)
          p (usernameFixed_upsertUser_self us p)
      · exact ih (upsertUser us q) p hp2

theorem upsertUsers_of_all_fixed (l : List (Int × Option String)) :
    ∀ (d : List User), (∀ p ∈ l, usernameFixed d p) → upsertUsers d l = d := by
  induction l with
  | nil => intro d _; rfl
  | cons q t ih =>
      intro d h
      have hq : upsertUser d q = d := usernameFixed_upsert_of_fixed d q (h q (List.mem_cons_self q t))
      show upsertUsers (upsertUser d q) t = d
      rw [hq]
      exact ih d (fun p hp => h p (List.mem_cons_of_mem q hp))

theorem upsertUsers_idem (us : List User) (l : List (Int × Option String)) :
    upsertUsers (upsertUsers us l) l = upsertUsers us l :=
  upsertUsers_of_all_fixed l (upsertUsers us l) (usernameFixed_after l us)

/-! ### The harvested user dictionary: first occurrence wins -/

theorem find?_foldl_dictInsert (l : List (Int × Option String)) :
    ∀ (m : List (Int × Option String)) (k : Int),
      ((l.foldl (fun acc p => dictInsert acc p.1 p.2) m).find? (fun p => p.1 == k)) =
        ((m.find? (fun p => p.1 == k)).or (l.find? (fun p => p.1 == k))) := by
  induction l with
  | nil => intro m k; rw [List.foldl_nil, List.find?_nil, Option.or_none]
  | cons q t ih =>
      intro m k
      rw [List.foldl_cons, ih]
      unfold dictInsert
      by_cases hq : m.any (fun p => p.1 == q.1) = true
      · rw [if_pos hq]
        by_cases hqk : (q.1 == k) = true
        · have hk : q.1 = k := by simpa using hqk
          have : (m.find? (fun p => p.1 == k)).isSome = true := by
            rw [← any_eq_isSome_find?]
            rw [← hk]
            exact hq
          obtain ⟨w, hw⟩ := Option.isSome_iff_exists.1 this
          rw [hw]
          rfl
        · rw [List.find?_cons_of_neg _ (by simpa using hqk)]
      · rw [if_neg hq, List.find?_append]
        by_cases hqk : (q.1 == k) = true
        · have hsingle : ([(q.1, q.2)] : List (Int × Option String)).find?
              (fun p => p.1 == k) = some (q.1, q.2) := by
            simp [List.find?_cons, hqk]
          rw [hsingle, List.find?_cons_of_pos _ (by exact hqk), Option.or_assoc]
          rfl
        · have hsingle : ([(q.1, q.2)] : List (Int × Option String)).find?
              (fun p => p.1 == k) = none := by
            simp [List.find?_cons, hqk]
          rw [hsingle, Option.or_none, List.find?_cons_of_neg _ (by simpa using hqk)]

theorem userList_find? (b : Batch) (k : Int) :
    (userList b).find? (fun p => p.1 == k) =
      (harvestPairs b).find? (fun p => p.1 == k) := by
  unfold userList
  rw [find?_foldl_dictInsert, List.find?_nil, Option.none_or]

theorem userList_keys_any (b : Batch) (k : Int) :
    (userList b).any (fun p => p.1 == k) = (harvestPairs b).any (fun p => p.1 == k) := by
  rw [any_eq_isSome_find?, any_eq_isSome_find?, userList_find?]

theorem nodup_keys_foldl_dictInsert (l : List (Int × Option String)) :
    ∀ (m : List (Int × Option String)), (m.map Prod.fst).Nodup →
      (((l.foldl (fun acc p => dictInsert acc p.1 p.2) m)).map Prod.fst).Nodup := by
  induction l with
  | nil => intro m h; exact h
  | cons q t ih =>
      intro m h
      rw [List.foldl_cons]
      apply ih
      unfold dictInsert
      by_cases hq : m.any (fun p => p.1 == q.1) = true
      · rw [if_pos hq]; exact h
      · rw [if_neg hq, List.map_append]
        rw [List.nodup_append]
        refine ⟨h, List.nodup_singleton _, ?_⟩
        intro a ha hb
        have hak : a = q.1 := by simpa using hb
        subst hak
        rw [List.mem_map] at ha
        obtain ⟨p, hp, hpa⟩ := ha
        rw [Bool.not_eq_true, List.any_eq_false] at hq
        exact hq p hp (by simp [hpa])

theorem userList_keys_nodup (b : Batch) : ((userList b).map Prod.fst).Nodup :=
  nodup_keys_foldl_dictInsert (harvestPairs b) [] List.nodup_nil

/-! ### The three ON CONFLICT DO NOTHING inserts: frames, success, no-ops -/

theorem insertTweet_ok_facts (db d : DB) (t : Tweet) (h : insertTweet db t = Except.ok d) :
    d.users = db.users ∧ d.follows = db.follows ∧ d.likes = db.likes ∧
    (∀ i, tweetsHas db.tweets i = true → tweetsHas d.tweets i = true) ∧
    tweetsHas d.tweets t.tweet_id = true ∧
    (∀ u ∈ d.tweets, u ∈ db.tweets ∨ (u = t ∧ tweetFKokUsers db.users u = true)) := by
  unfold insertTweet at h
  by_cases h1 : tweetExists db t.tweet_id = true
  · rw [if_pos h1] at h
    obtain rfl : db = d := by injection h
    exact ⟨rfl, rfl, rfl, fun i hi => hi, h1, fun u hu => Or.inl hu⟩
  · rw [if_neg h1] at h
    by_cases h2 : tweetFKokUsers db.users t = true
    · rw [if_pos h2] at h
      obtain rfl : { db with tweets := db.tweets ++ [t] } = d := by injection h
      refine ⟨rfl, rfl, rfl, ?_, ?_, ?_⟩
      · intro i hi
        show tweetsHas (db.tweets ++ [t]) i = true
        unfold tweetsHas at hi ⊢
        rw [List.any_append, hi, Bool.true_or]
      · show tweetsHas (db.tweets ++ [t]) t.tweet_id = true
        unfold tweetsHas
        rw [List.any_append]
        simp
      · intro u hu
        rcases List.mem_append.1 hu with hu | hu
        · exact Or.inl hu
        · have hut : u = t := by simpa using hu
          exact Or.inr ⟨hut, hut ▸ h2⟩
    · rw [if_neg h2] at h
      exact absurd h (by simp)

theorem tweetsFold_facts (l : List Tweet) :
    ∀ (db d : DB), l.foldlM insertTweet db = Except.ok d →
      d.users = db.users ∧ d.follows = db.follows ∧ d.likes = db.likes ∧
      (∀ i, tweetsHas db.tweets i = true → tweetsHas d.tweets i = true) ∧
      (∀ t ∈ l, tweetsHas d.tweets t.tweet_id = true) ∧
      (∀ u ∈ d.tweets, u ∈ db.tweets ∨ tweetFKokUsers db.users u = true) := by
  induction l with
  | nil =>
      intro db d h
      have h2 : Except.ok db = Except.ok d := h
      obtain rfl : db = d := by injection h2
      exact ⟨rfl, rfl, rfl, fun i hi => hi, by simp, fun u hu => Or.inl hu⟩
  | cons t ts ih =>
      intro db d h
      rw [List.foldlM_cons] at h
      cases hstep : insertTweet db t with
      | error e =>
          rw [hstep] at h
          have h3 : (Except.error e : Except LoadError DB) = Except.ok d := h
          exact Except.noConfusion h3
      | ok db1 =>
          rw [hstep] at h
          have h2 : ts.foldlM insertTweet db1 = Except.ok d := h
          obtain ⟨s1u, s1f, s1l, s1mono, s1self, s1mem⟩ := insertTweet_ok_facts db db1 t hstep
          obtain ⟨ihu, ihf, ihl, ihmono, ihall, ihmem⟩ := ih db1 d h2
          refine ⟨ihu.trans s1u, ihf.trans s1f, ihl.trans s1l, ?_, ?_, ?_⟩
          · exact fun i hi => ihmono i (s1mono i hi)
          · intro t2 ht2
            rcases List.mem_cons.1 ht2 with rfl | ht3
            · exact ihmono _ s1self
            · exact ihall t2 ht3
          · intro u hu
            rcases ihmem u hu with hu1 | hfk
            · rcases s1mem u hu1 with h3 | h4
              · exact Or.inl h3
              · exact Or.inr h4.2
            · rw [s1u] at hfk
              exact Or.inr hfk

theorem tweetsFold_ok (l : List Tweet) :
    ∀ (db : DB), (∀ t ∈ l, tweetFKokUsers db.users t = true) →
      ∃ d, l.foldlM insertTweet db = Except.ok d := by
  induction l with
  | nil => intro db _; exact ⟨db, rfl⟩
  | cons t ts ih =>
      intro db hc
      have hok : ∃ db1, insertTweet db t = Except.ok db1 ∧ db1.users = db.users := by
        unfold insertTweet
        by_cases h1 : tweetExists db t.tweet_id = true
        · rw [if_pos h1]
          exact ⟨db, rfl, rfl⟩
        · rw [if_neg h1, if_pos (hc t (List.mem_cons_self t ts))]
          exact ⟨_, rfl, rfl⟩
      obtain ⟨db1, hstep, husers⟩ := hok
      obtain ⟨d, hd⟩ := ih db1
        (fun t2 ht2 => by rw [husers]; exact hc t2 (List.mem_cons_of_mem t ht2))
      refine ⟨d, ?_⟩
      rw [List.foldlM_cons, hstep]
      exact hd

theorem tweetsFold_skip (l : List Tweet) :
    ∀ (db : DB), (∀ t ∈ l, tweetsHas db.tweets t.tweet_id = true) →
      l.foldlM insertTweet db = Except.ok db := by
  induction l with
  | nil => intro db _; rfl
  | cons t ts ih =>
      intro db hc
      have hstep : insertTweet db t = Except.ok db := by
        unfold insertTweet
        have h1 : tweetExists db t.tweet_id = true := hc t (List.mem_cons_self t ts)
        rw [if_pos h1]
      rw [List.foldlM_cons, hstep]
      exact ih db (fun t2 ht2 => hc t2 (List.mem_cons_of_mem t ht2))

theorem insertFollow_ok_facts (db d : DB) (f : Follow) (h : insertFollow db f = Except.ok d) :
    d.users = db.users ∧ d.tweets = db.tweets ∧ d.likes = db.likes ∧
    (∀ g, followExists db g = true → followExists d g = true) ∧
    followExists d f = true := by
  unfold insertFollow at h
  by_cases h1 : followExists db f = true
  · rw [if_pos h1] at h
    obtain rfl : db = d := by injection h
    exact ⟨rfl, rfl, rfl, fun g hg => hg, h1⟩
  · rw [if_neg h1] at h
    by_cases h2 : (usersHas db.users f.follower_id && usersHas db.users f.followee_id) = true
    · rw [if_pos h2] at h
      obtain rfl : { db with follows := db.follows ++ [f] } = d := by injection h
      refine ⟨rfl, rfl, rfl, ?_, ?_⟩
      · intro g hg
        show (db.follows ++ [f]).any _ = true
        rw [List.any_append]
        unfold followExists at hg
        rw [hg, Bool.true_or]
      · show (db.follows ++ [f]).any _ = true
        rw [List.any_append]
        simp
    · rw [if_neg h2] at h
      exact absurd h (by simp)

theorem followsFold_facts (l : List Follow) :
    ∀ (db d : DB), l.foldlM insertFollow db = Except.ok d →
      d.users = db.users ∧ d.tweets = db.tweets ∧ d.likes = db.likes ∧
      (∀ g, followExists db g = true → followExists d g = true) ∧
      (∀ f ∈ l, followExists d f = true) := by
  induction l with
  | nil =>
      intro db d h
      have h2 : Except.ok db = Except.ok d := h
      obtain rfl : db = d := by injection h2
      exact ⟨rfl, rfl, rfl, fun g hg => hg, by simp⟩
  | cons f fs ih =>
      intro db d h
      rw [List.foldlM_cons] at h
      cases hstep : insertFollow db f with
      | error e =>
          rw [hstep] at h
          have h3 : (Except.error e : Except LoadError DB) = Except.ok d := h
          exact Except.noConfusion h3
      | ok db1 =>
          rw [hstep] at h
          have h2 : fs.foldlM insertFollow db1 = Except.ok d := h
          obtain ⟨s1u, s1t, s1l, s1mono, s1self⟩ := insertFollow_ok_facts db db1 f hstep
          obtain ⟨ihu, iht, ihl, ihmono, ihall⟩ := ih db1 d h2
          refine ⟨ihu.trans s1u, iht.trans s1t, ihl.trans s1l,
            fun g hg => ihmono g (s1mono g hg), ?_⟩
          intro f2 hf2
          rcases List.mem_cons.1 hf2 with rfl | hf3
          · exact ihmono _ s1self
          · exact ihall f2 hf3

theorem followsFold_ok (l : List Follow) :
    ∀ (db : DB),
      (∀ f ∈ l, usersHas db.users f.follower_id = true ∧ usersHas db.users f.followee_id = true) →
      ∃ d, l.foldlM insertFollow db = Except.ok d := by
  induction l with
  | nil => intro db _; exact ⟨db, rfl⟩
  | cons f fs ih =>
      intro db hc
      have hok : ∃ db1, insertFollow db f = Except.ok db1 ∧ db1.users = db.users := by
        unfold insertFollow
        by_cases h1 : followExists db f = true
        · rw [if_pos h1]
          exact ⟨db, rfl, rfl⟩
        · obtain ⟨ha, hb⟩ := hc f (List.mem_cons_self f fs)
          rw [if_neg h1, if_pos (by rw [ha, hb]; rfl)]
          exact ⟨_, rfl, rfl⟩
      obtain ⟨db1, hstep, husers⟩ := hok
      obtain ⟨d, hd⟩ := ih db1
        (fun f2 hf2 => by rw [husers]; exact hc f2 (List.mem_cons_of_mem f hf2))
      refine ⟨d, ?_⟩
      rw [List.foldlM_cons, hstep]
      exact hd

theorem followsFold_skip (l : List Follow) :
    ∀ (db : DB), (∀ f ∈ l, followExists db f = true) →
      l.foldlM insertFollow db = Except.ok db := by
  induction l with
  | nil => intro db _; rfl
  | cons f fs ih =>
      intro db hc
      have hstep : insertFollow db f = Except.ok db := by
        unfold insertFollow
        rw [if_pos (hc f (List.mem_cons_self f fs))]
      rw [List.foldlM_cons, hstep]
      exact ih db (fun f2 hf2 => hc f2 (List.mem_cons_of_mem f hf2))

theorem insertLike_ok_facts (db d : DB) (lk : Like) (h : insertLike db lk = Except.ok d) :
    d.users = db.users ∧ d.tweets = db.tweets ∧ d.follows = db.follows ∧
    (∀ m, likeExists db m = true → likeExists d m = true) ∧
    likeExists d lk = true := by
  unfold insertLike at h
  by_cases h1 : likeExists db lk = true
  · rw [if_pos h1] at h
    obtain rfl : db = d := by injection h
    exact ⟨rfl, rfl, rfl, fun m hm => hm, h1⟩
  · rw [if_neg h1] at h
    by_cases h2 : (usersHas db.users lk.user_id && tweetsHas db.tweets lk.tweet_id) = true
    · rw [if_pos h2] at h
      obtain rfl : { db with likes := db.likes ++ [lk] } = d := by injection h
      refine ⟨rfl, rfl, rfl, ?_, ?_⟩
      · intro m hm
        show (db.likes ++ [lk]).any _ = true
        rw [List.any_append]
        unfold likeExists at hm
        rw [hm, Bool.true_or]
      · show (db.likes ++ [lk]).any _ = true
        rw [List.any_append]
        simp
    · rw [if_neg h2] at h
      exact absurd h (by simp)

theorem likesFold_facts (l : List Like) :
    ∀ (db d : DB), l.foldlM insertLike db = Except.ok d →
      d.users = db.users ∧ d.tweets = db.tweets ∧ d.follows = db.follows ∧
      (∀ m, likeExists db m = true → likeExists d m = true) ∧
      (∀ lk ∈ l, likeExists d lk = true) := by
  induction l with
  | nil =>
      intro db d h
      have h2 : Except.ok db = Except.ok d := h
      obtain rfl : db = d := by injection h2
      exact ⟨rfl, rfl, rfl, fun m hm => hm, by simp⟩
  | cons lk ls ih =>
      intro db d h
      rw [List.foldlM_cons] at h
      cases hstep : insertLike db lk with
      | error e =>
          rw [hstep] at h
          have h3 : (Except.error e : Except LoadError DB) = Except.ok d := h
          exact Except.noConfusion h3
      | ok db1 =>
          rw [hstep] at h
          have h2 : ls.foldlM insertLike db1 = Except.ok d := h
          obtain ⟨s1u, s1t, s1f, s1mono, s1self⟩ := insertLike_ok_facts db db1 lk hstep
          obtain ⟨ihu, iht, ihf, ihmono, ihall⟩ := ih db1 d h2
          refine ⟨ihu.trans s1u, iht.trans s1t, ihf.trans s1f,
            fun m hm => ihmono m (s1mono m hm), ?_⟩
          intro lk2 hlk2
          rcases List.mem_cons.1 hlk2 with rfl | hlk3
          · exact ihmono _ s1self
          · exact ihall lk2 hlk3

theorem likesFold_ok (l : List Like) :
    ∀ (db : DB),
      (∀ lk ∈ l, usersHas db.users lk.user_id = true ∧ tweetsHas db.tweets lk.tweet_id = true) →
      ∃ d, l.foldlM insertLike db = Except.ok d := by
  induction l with
  | nil => intro db _; exact ⟨db, rfl⟩
  | cons lk ls ih =>
      intro db hc
      have hok : ∃ db1, insertLike db lk = Except.ok db1 ∧ db1.users = db.users ∧
          db1.tweets = db.tweets := by
        unfold insertLike
        by_cases h1 : likeExists db lk = true
        · rw [if_pos h1]
          exact ⟨db, rfl, rfl, rfl⟩
        · obtain ⟨ha, hb⟩ := hc lk (List.mem_cons_self lk ls)
          rw [if_neg h1, if_pos (by rw [ha, hb]; rfl)]
          exact ⟨_, rfl, rfl, rfl⟩
      obtain ⟨db1, hstep, husers, htweets⟩ := hok
      obtain ⟨d, hd⟩ := ih db1
        (fun lk2 hlk2 => by
          rw [husers, htweets]
          exact hc lk2 (List.mem_cons_of_mem lk hlk2))
      refine ⟨d, ?_⟩
      rw [List.foldlM_cons, hstep]
      exact hd

theorem likesFold_skip (l : List Like) :
    ∀ (db : DB), (∀ lk ∈ l, likeExists db lk = true) →
      l.foldlM insertLike db = Except.ok db := by
  induction l with
  | nil => intro db _; rfl
  | cons lk ls ih =>
      intro db hc
      have hstep : insertLike db lk = Except.ok db := by
        unfold insertLike
        rw [if_pos (hc lk (List.mem_cons_self lk ls))]
      rw [List.foldlM_cons, hstep]
      exact ih db (fun lk2 hlk2 => hc lk2 (List.mem_cons_of_mem lk hlk2))

/-! ### Coverage: every id referenced by a batch row is harvested -/

theorem mem_harvest_follow_id (b : Batch) (r : FollowRow) (hr : r ∈ b.follows) :
    (r.id, r.username) ∈ harvestPairs b := by
  unfold harvestPairs
  rw [List.append_assoc, List.mem_append]
  exact Or.inl (List.mem_flatMap.2 ⟨r, hr, by simp⟩)

theorem mem_harvest_follow_from (b : Batch) (r : FollowRow) (hr : r ∈ b.follows) :
    ((r.from_id, none) : Int × Option String) ∈ harvestPairs b := by
  unfold harvestPairs
  rw [List.append_assoc, List.mem_append]
  exact Or.inl (List.mem_flatMap.2 ⟨r, hr, by simp⟩)

theorem mem_harvest_like_user (b : Batch) (r : LikeRow) (hr : r ∈ b.likes) :
    (r.original_user_id, r.screen_name) ∈ harvestPairs b := by
  unfold harvestPairs
  rw [List.append_assoc, List.mem_append, List.mem_append]
  exact Or.inr (Or.inl (List.mem_flatMap.2 ⟨r, hr, by simp⟩))

theorem mem_harvest_like_author (b : Batch) (r : LikeRow) (hr : r ∈ b.likes) :
    ((r.liked_user_id, none) : Int × Option String) ∈ harvestPairs b := by
  unfold harvestPairs
  rw [List.append_assoc, List.mem_append, List.mem_append]
  exact Or.inr (Or.inl (List.mem_flatMap.2 ⟨r, hr, by simp⟩))

theorem mem_harvest_tweet_author (b : Batch) (r : TweetRow) (hr : r ∈ b.tweets) :
    (r.original_user_id, r.screen_name) ∈ harvestPairs b := by
  unfold harvestPairs
  rw [List.append_assoc, List.mem_append, List.mem_append]
  exact Or.inr (Or.inr (List.mem_flatMap.2 ⟨r, hr, by simp⟩))

theorem mem_harvest_tweet_retweet (b : Batch) (r : TweetRow) (x : Int) (hr : r ∈ b.tweets)
    (hx : r.retweeted_user_ID = some x) :
    ((x, none) : Int × Option String) ∈ harvestPairs b := by
  unfold harvestPairs
  rw [List.append_assoc, List.mem_append, List.mem_append]
  refine Or.inr (Or.inr (List.mem_flatMap.2 ⟨r, hr, ?_⟩))
  rw [hx]
  simp

/-- Any harvested id is present in the Users table after step 1. -/
theorem usersHas_after_step1 (db : DB) (b : Batch) (k : Int)
    (h : (harvestPairs b).any (fun p => p.1 == k) = true) :
    usersHas (upsertUsers db.users (userList b)) k = true := by
  apply usersHas_upsertUsers_of_key
  rw [userList_keys_any]
  exact h

/-! ### The all_tweets dictionary: membership and key presence -/

theorem mem_tweets_fold (l : List TweetRow) :
    ∀ (acc : List Tweet) (t : Tweet),
      t ∈ l.foldl (fun m r =>
        match r.tweet_id with
        | some tid => tweetDictInsert m (mkTweetFromTweetRow r tid)
        | none => m) acc →
      t ∈ acc ∨ ∃ r ∈ l, ∃ tid, r.tweet_id = some tid ∧ t = mkTweetFromTweetRow r tid := by
  induction l with
  | nil => intro acc t h; exact Or.inl h
  | cons r rs ih =>
      intro acc t h
      rw [List.foldl_cons] at h
      rcases ih _ t h with h1 | ⟨r2, hr2, tid, htid, hteq⟩
      · cases hrt : r.tweet_id with
        | none => simp only [hrt] at h1; exact Or.inl h1
        | some tid =>
            simp only [hrt] at h1
            unfold tweetDictInsert at h1
            by_cases hp : acc.any
                (fun x => x.tweet_id == (mkTweetFromTweetRow r tid).tweet_id) = true
            · rw [if_pos hp] at h1
              exact Or.inl h1
            · rw [if_neg hp] at h1
              rcases List.mem_append.1 h1 with h2 | h2
              · exact Or.inl h2
              · exact Or.inr ⟨r, List.mem_cons_self r rs, tid, hrt, by simpa using h2⟩
      · exact Or.inr ⟨r2, List.mem_cons_of_mem r hr2, tid, htid, hteq⟩

theorem mem_likes_fold (l : List LikeRow) :
    ∀ (acc : List Tweet) (t : Tweet),
      t ∈ l.foldl (fun m r =>
        match r.tweet_id with
        | some tid => tweetDictInsert m (mkTweetFromLikeRow r tid)
        | none => m) acc →
      t ∈ acc ∨ ∃ r ∈ l, ∃ tid, r.tweet_id = some tid ∧ t = mkTweetFromLikeRow r tid := by
  induction l with
  | nil => intro acc t h; exact Or.inl h
  | cons r rs ih =>
      intro acc t h
      rw [List.foldl_cons] at h
      rcases ih _ t h with h1 | ⟨r2, hr2, tid, htid, hteq⟩
      · cases hrt : r.tweet_id with
        | none => simp only [hrt] at h1; exact Or.inl h1
        | some tid =>
            simp only [hrt] at h1
            unfold tweetDictInsert at h1
            by_cases hp : acc.any
                (fun x => x.tweet_id == (mkTweetFromLikeRow r tid).tweet_id) = true
            · rw [if_pos hp] at h1
              exact Or.inl h1
            · rw [if_neg hp] at h1
              rcases List.mem_append.1 h1 with h2 | h2
              · exact Or.inl h2
              · exact Or.inr ⟨r, List.mem_cons_self r rs, tid, hrt, by simpa using h2⟩
      · exact Or.inr ⟨r2, List.mem_cons_of_mem r hr2, tid, htid, hteq⟩

theorem mem_tweetList (b : Batch) (t : Tweet) (ht : t ∈ tweetList b) :
    (∃ r ∈ b.tweets, ∃ tid, r.tweet_id = some tid ∧ t = mkTweetFromTweetRow r tid) ∨
    (∃ r ∈ b.likes, ∃ tid, r.tweet_id = some tid ∧ t = mkTweetFromLikeRow r tid) := by
  unfold tweetList at ht
  rcases mem_likes_fold _ _ _ ht with h1 | h2
  · rcases mem_tweets_fold _ _ _ h1 with h3 | h4
    · simp at h3
    · exact Or.inl h4
  · exact Or.inr h2

theorem tweetDictInsert_has_self (m : List Tweet) (t : Tweet) :
    tweetsHas (tweetDictInsert m t) t.tweet_id = true := by
  unfold tweetDictInsert
  by_cases hp : m.any (fun x => x.tweet_id == t.tweet_id) = true
  · rw [if_pos hp]
    exact hp
  · rw [if_neg hp]
    unfold tweetsHas
    rw [List.any_append]
    simp

theorem tweetDictInsert_has_mono (m : List Tweet) (t : Tweet) (i : Int)
    (h : tweetsHas m i = true) : tweetsHas (tweetDictInsert m t) i = true := by
  unfold tweetDictInsert
  by_cases hp : m.any (fun x => x.tweet_id == t.tweet_id) = true
  · rw [if_pos hp]
    exact h
  · rw [if_neg hp]
    unfold tweetsHas at h ⊢
    rw [List.any_append, h, Bool.true_or]

theorem likes_fold_has_mono (l : List LikeRow) :
    ∀ (acc : List Tweet) (i : Int), tweetsHas acc i = true →
      tweetsHas (l.foldl (fun m r =>
        match r.tweet_id with
        | some tid => tweetDictInsert m (mkTweetFromLikeRow r tid)
        | none => m) acc) i = true := by
  induction l with
  | nil => intro acc i h; exact h
  | cons r rs ih =>
      intro acc i h
      rw [List.foldl_cons]
      apply ih
      cases hrt : r.tweet_id with
      | none => exact h
      | some tid => exact tweetDictInsert_has_mono acc (mkTweetFromLikeRow r tid) i h

theorem likes_fold_key (l : List LikeRow) :
    ∀ (acc : List Tweet) (r : LikeRow) (tid : Int), r ∈ l → r.tweet_id = some tid →
      tweetsHas (l.foldl (fun m r2 =>
        match r2.tweet_id with
        | some t2 => tweetDictInsert m (mkTweetFromLikeRow r2 t2)
        | none => m) acc) tid = true := by
  induction l with
  | nil => intro acc r tid hr _; simp at hr
  | cons r2 rs ih =>
      intro acc r tid hr htid
      rw [List.foldl_cons]
      rcases List.mem_cons.1 hr with rfl | hr2
      · apply likes_fold_has_mono
        rw [htid]
        exact tweetDictInsert_has_self acc (mkTweetFromLikeRow r tid)
      · exact ih _ r tid hr2 htid

theorem tweetList_like_key (b : Batch) (r : LikeRow) (tid : Int) (hr : r ∈ b.likes)
    (htid : r.tweet_id = some tid) : tweetsHas (tweetList b) tid = true :=
  likes_fold_key b.likes _ r tid hr htid

/-- Every tweet assembled by the loader satisfies its foreign keys against
the Users table produced by step 1. -/
theorem tweetList_fk (b : Batch) (db : DB) (t : Tweet) (ht : t ∈ tweetList b) :
    tweetFKokUsers (upsertUsers db.users (userList b)) t = true := by
  rcases mem_tweetList b t ht with ⟨r, hr, tid, htid, rfl⟩ | ⟨r, hr, tid, htid, rfl⟩
  · show (usersHas _ r.original_user_id &&
      (match r.retweeted_user_ID with
       | none => true
       | some rr => usersHas _ rr)) = true
    rw [Bool.and_eq_true]
    constructor
    · exact usersHas_after_step1 db b _
        (List.any_eq_true.2 ⟨_, mem_harvest_tweet_author b r hr, by simp⟩)
    · cases hx : r.retweeted_user_ID with
      | none => rfl
      | some x =>
          exact usersHas_after_step1 db b _
            (List.any_eq_true.2 ⟨_, mem_harvest_tweet_retweet b r x hr hx, by simp⟩)
  · show (usersHas _ r.liked_user_id && true) = true
    rw [Bool.and_true]
    exact usersHas_after_step1 db b _
      (List.any_eq_true.2 ⟨_, mem_harvest_like_author b r hr, by simp⟩)

/-! ### The loader's four steps always succeed, with a known outcome -/

theorem loadSteps_ok (db : DB) (b : Batch) :
    ∃ d, loadSteps db b = Except.ok d ∧
      d.users = upsertUsers db.users (userList b) ∧
      (∀ t ∈ tweetList b, tweetsHas d.tweets t.tweet_id = true) ∧
      (∀ f ∈ followsList b, followExists d f = true) ∧
      (∀ lk ∈ likesList b, likeExists d lk = true) := by
  have hdb1u : (usersStep db b).users = upsertUsers db.users (userList b) := rfl
  obtain ⟨db2, h2⟩ := tweetsFold_ok (tweetList b) (usersStep db b)
    (fun t ht => by rw [hdb1u]; exact tweetList_fk b db t ht)
  obtain ⟨t_u, t_f, t_l, t_mono, t_all, t_mem⟩ := tweetsFold_facts _ _ _ h2
  have hfc : ∀ f ∈ followsList b,
      usersHas db2.users f.follower_id = true ∧ usersHas db2.users f.followee_id = true := by
    intro f hf
    rw [t_u, hdb1u]
    unfold followsList at hf
    rw [List.mem_map] at hf
    obtain ⟨r, hr, rfl⟩ := hf
    constructor
    · exact usersHas_after_step1 db b _
        (List.any_eq_true.2 ⟨_, mem_harvest_follow_from b r hr, by simp⟩)
    · exact usersHas_after_step1 db b _
        (List.any_eq_true.2 ⟨_, mem_harvest_follow_id b r hr, by simp⟩)
  obtain ⟨db3, h3⟩ := followsFold_ok (followsList b) db2 hfc
  obtain ⟨f_u, f_t, f_l, f_mono, f_all⟩ := followsFold_facts _ _ _ h3
  have hlc : ∀ lk ∈ likesList b,
      usersHas db3.users lk.user_id = true ∧ tweetsHas db3.tweets lk.tweet_id = true := by
    intro lk hlk
    unfold likesList at hlk
    rw [List.mem_filterMap] at hlk
    obtain ⟨r, hr, hmk⟩ := hlk
    cases htid : r.tweet_id with
    | none =>
        simp only [htid] at hmk
        exact Option.noConfusion hmk
    | some tid =>
        cases hcoll : r.collected_at with
        | none =>
            simp only [htid, hcoll] at hmk
            exact Option.noConfusion hmk
        | some c =>
            simp only [htid, hcoll] at hmk
            injection hmk with hmk
            subst hmk
            constructor
            · rw [f_u, t_u, hdb1u]
              exact usersHas_after_step1 db b _
                (List.any_eq_true.2 ⟨_, mem_harvest_like_user b r hr, by simp⟩)
            · rw [f_t]
              show tweetsHas db2.tweets tid = true
              have hkey := tweetList_like_key b r tid hr htid
              unfold tweetsHas at hkey
              rw [List.any_eq_true] at hkey
              obtain ⟨t2, ht2, ht2k⟩ := hkey
              have heq : t2.tweet_id = tid := by simpa using ht2k
              rw [← heq]
              exact t_all t2 ht2
  obtain ⟨d, h4⟩ := likesFold_ok (likesList b) db3 hlc
  obtain ⟨l_u, l_t, l_f, l_mono, l_all⟩ := likesFold_facts _ _ _ h4
  have hh2 : tweetsStep (usersStep db b) b = Except.ok db2 := h2
  have hh3 : followsStep db2 b = Except.ok db3 := h3
  have hh4 : likesStep db3 b = Except.ok d := h4
  refine ⟨d, ?_, ?_, ?_, ?_, ?_⟩
  · show (tweetsStep (usersStep db b) b >>= fun x =>
      followsStep x b >>= fun y => likesStep y b) = Except.ok d
    rw [hh2]
    show (followsStep db2 b >>= fun y => likesStep y b) = Except.ok d
    rw [hh3]
    exact hh4
  · rw [l_u, f_u, t_u]
    exact hdb1u
  · intro t ht
    rw [l_t, f_t]
    exact t_all t ht
  · intro f hf
    have := f_all f hf
    unfold followExists at this ⊢
    rw [l_f]
    exact this
  · exact l_all

theorem populate_database_eq (db : DB) (b : Batch) (d : DB)
    (h : loadSteps db b = Except.ok d) : populate_database db b = d := by
  unfold populate_database
  rw [h]

/-! ### C6: loading a batch twice equals loading it once -/

/-- C6: bulk loading is idempotent — running `populate_database` twice with
the same batch leaves the store in exactly the state of running it once
(duplicate Tweet/Follow/Like keys are no-ops, the Users COALESCE upsert is a
fixpoint on its own output), so every query returns the same results. -/
theorem load_idempotent (db : DB) (b : Batch) :
    populate_database (populate_database db b) b = populate_database db b := by
  obtain ⟨d, hok, hu, hT, hF, hL⟩ := loadSteps_ok db b
  rw [populate_database_eq db b d hok]
  have husers : upsertUsers d.users (userList b) = d.users := by
    rw [hu]
    exact upsertUsers_idem db.users (userList b)
  have hstep1 : usersStep d b = d := by
    unfold usersStep
    rw [husers]
  have hs2 : tweetsStep d b = Except.ok d := tweetsFold_skip (tweetList b) d hT
  have hs3 : followsStep d b = Except.ok d := followsFold_skip (followsList b) d hF
  have hs4 : likesStep d b = Except.ok d := likesFold_skip (likesList b) d hL
  have hls : loadSteps d b = Except.ok d := by
    show (tweetsStep (usersStep d b) b >>= fun x =>
      followsStep x b >>= fun y => likesStep y b) = Except.ok d
    rw [hstep1, hs2]
    show (followsStep d b >>= fun y => likesStep y b) = Except.ok d
    rw [hs3]
    exact hs4
  exact populate_database_eq d b d hls

/-! ### C1: referential integrity across loads and deletes -/

theorem authorsOk_fields (db d : DB) (hu : d.users = db.users) (ht : d.tweets = db.tweets)
    (h : AuthorsOk db) : AuthorsOk d := by
  intro t htm
  rw [ht] at htm
  unfold userExists usersHas
  rw [hu]
  exact h t htm

theorem authorsOk_usersStep (db : DB) (b : Batch) (h : AuthorsOk db) :
    AuthorsOk (usersStep db b) := by
  intro t htm
  have htm2 : t ∈ db.tweets := htm
  have hx := h t htm2
  unfold userExists at hx ⊢
  show usersHas (upsertUsers db.users (userList b)) t.author_id = true
  exact usersHas_upsertUsers (userList b) db.users t.author_id hx

theorem authorsOk_tweetsStep (db d : DB) (b : Batch) (h2 : tweetsStep db b = Except.ok d)
    (h : AuthorsOk db) : AuthorsOk d := by
  obtain ⟨t_u, -, -, -, -, t_mem⟩ := tweetsFold_facts _ _ _ h2
  intro t htm
  rcases t_mem t htm with hold | hfk
  · have hx := h t hold
    unfold userExists at hx ⊢
    rw [t_u]
    exact hx
  · unfold userExists
    rw [t_u]
    unfold tweetFKokUsers at hfk
    rw [Bool.and_eq_true] at hfk
    exact hfk.1

theorem authorsOk_populate (db : DB) (b : Batch) (h : AuthorsOk db) :
    AuthorsOk (populate_database db b) := by
  cases hls : loadSteps db b with
  | error e =>
      unfold populate_database
      rw [hls]
      exact h
  | ok d =>
      rw [populate_database_eq db b d hls]
      have hchain : (tweetsStep (usersStep db b) b >>= fun x =>
        followsStep x b >>= fun y => likesStep y b) = Except.ok d := hls
      cases h2 : tweetsStep (usersStep db b) b with
      | error e =>
          rw [h2] at hchain
          have hx : (Except.error e : Except LoadError DB) = Except.ok d := hchain
          simp at hx
      | ok db2 =>
          rw [h2] at hchain
          have hchain2 : (followsStep db2 b >>= fun y => likesStep y b) = Except.ok d := hchain
          cases h3 : followsStep db2 b with
          | error e =>
              rw [h3] at hchain2
              have hx : (Except.error e : Except LoadError DB) = Except.ok d := hchain2
              simp at hx
          | ok db3 =>
              rw [h3] at hchain2
              have h4 : likesStep db3 b = Except.ok d := hchain2
              have hA1 : AuthorsOk (usersStep db b) := authorsOk_usersStep db b h
              have hA2 : AuthorsOk db2 := authorsOk_tweetsStep _ db2 b h2 hA1
              obtain ⟨f_u, f_t, -, -, -⟩ := followsFold_facts _ _ _ h3
              have hA3 : AuthorsOk db3 := authorsOk_fields db2 db3 f_u f_t hA2
              obtain ⟨l_u, l_t, -, -, -⟩ := likesFold_facts _ _ _ h4
              exact authorsOk_fields db3 d l_u l_t hA3

theorem authorsOk_deleteUser (db : DB) (x : Int) (h : AuthorsOk db) :
    AuthorsOk (deleteUser db x) := by
  intro t htm
  have htm2 : t ∈ (db.tweets.filter (fun t => t.author_id != x)).map
      (fun t =>
        if t.retweet_of_user_id == some x then { t with retweet_of_user_id := none }
        else t) := htm
  rw [List.mem_map] at htm2
  obtain ⟨t0, ht0, rfl⟩ := htm2
  rw [List.mem_filter] at ht0
  obtain ⟨ht0m, ht0x⟩ := ht0
  have hax : t0.author_id ≠ x := by simpa using ht0x
  have hauthor : (if t0.retweet_of_user_id == some x then
      { t0 with retweet_of_user_id := none } else t0).author_id = t0.author_id := by
    by_cases hr : (t0.retweet_of_user_id == some x) = true
    · rw [if_pos hr]
    · rw [if_neg hr]
  unfold userExists usersHas
  rw [hauthor]
  have hx := h t0 ht0m
  unfold userExists usersHas at hx
  rw [List.any_eq_true] at hx
  obtain ⟨u, hu, hpu⟩ := hx
  show ((db.users.filter (fun u => u.user_id != x)).any
    (fun u => u.user_id == t0.author_id)) = true
  rw [List.any_eq_true]
  refine ⟨u, List.mem_filter.2 ⟨hu, ?_⟩, hpu⟩
  have huid : u.user_id = t0.author_id := by simpa using hpu
  simp [huid, hax]

theorem authorsOk_runOps_gen (ops : List Op) :
    ∀ db, AuthorsOk db → AuthorsOk (ops.foldl applyOp db) := by
  induction ops with
  | nil => intro db h; exact h
  | cons op rest ih =>
      intro db h
      rw [List.foldl_cons]
      apply ih
      cases op with
      | load b => exact authorsOk_populate db b h
      | del x => exact authorsOk_deleteUser db x h

/-- C1: after any sequence of bulk loads and user deletes starting from the
empty store, every stored Tweet's author resolves to an existing User — the
loader harvests every referenced User id (follow endpoints, like performer
and liked-tweet author, tweet author and retweet target) and upserts all
Users before inserting dependent rows, and deletes cascade. -/
theorem referential_integrity (ops : List Op) (tid : Int) (t : Tweet)
    (h : getTweetById (runOps ops) tid = some t) :
    (getUserById (runOps ops) t.author_id).isSome = true := by
  have hA : AuthorsOk (runOps ops) :=
    authorsOk_runOps_gen ops emptyDB (fun t2 ht2 => absurd ht2 (by simp [emptyDB]))
  have hmem := List.mem_of_find?_eq_some h
  have hx := hA t hmem
  unfold userExists usersHas at hx
  rw [List.any_eq_true] at hx
  obtain ⟨u, hu, hpu⟩ := hx
  unfold getUserById
  rw [← any_eq_isSome_find?]
  exact List.any_eq_true.2 ⟨u, hu, hpu⟩

/-- Witness for C1: load a batch whose one tweet is authored by user 2, who
appears nowhere but inside the tweets stream; the author still resolves. -/
theorem referential_integrity_witness :
    (getUserById (runOps [Op.load wbatch1]) 2).isSome = true :=
  referential_integrity [Op.load wbatch1] 100 wtweet1 (by rfl)

/-! ### C10: first occurrence in scan order fixes the username -/

/-- C10: within one batch a user id's username is taken from the first row
mentioning that id in the loader's scan order (follows, then likes, then
tweets); if that first occurrence is a username-less position the user is
upserted with a null username even when a later row of the same batch
carries a name. -/
theorem first_occurrence_username (b : Batch) (db : DB) (u : Int)
    (h1 : (harvestPairs b).find? (fun p => p.1 == u) = some (u, none))
    (h2 : usersHas db.users u = false) :
    getUserById (populate_database db b) u = some { user_id := u, username := none } := by
  obtain ⟨d, hok, hu, -, -, -⟩ := loadSteps_ok db b
  rw [populate_database_eq db b d hok]
  unfold getUserById
  rw [hu]
  apply find?_user_upsertUsers_unique
  · rw [userList_find?]
    exact h1
  · exact userList_keys_nodup b
  · exact h2

/-- Witness for C10: in `wbatch10` user 5 first occurs as a follows-file
follower (no username), and a later tweets row carries "alice"; 5 is stored
with a null username. -/
theorem first_occurrence_username_witness :
    getUserById (populate_database emptyDB wbatch10) 5 =
      some { user_id := 5, username := none } :=
  first_occurrence_username wbatch10 emptyDB 5 (by rfl) (by rfl)

end TwonDB
